import Mathlib

/-!
Verification development for the `thevenin` equivalent-circuit battery
simulator. The repository snapshot ships only documentation (API reference,
model description, README, changelog); the Python implementation files
(`_model.py`, `_experiment.py`, `_solutions.py`) are not part of the
snapshot. Every definition below that embeds behaviour of that missing
implementation is therefore modelled from the specification, faithful to
its words, and each such definition says so in its doc comment.
All numerics use `ℚ` (exact arithmetic); the external SUNDIALS IDA solver
is out of scope and is represented by an explicit solver-function
parameter, instantiated with an explicit-Euler stand-in where a concrete
integrator is needed.
-/

namespace Thevenin

/-! ## Parameter configuration -/

/-- Modelled from the spec: the fixed vocabulary of parameter keys accepted
by `Model.__init__` (spec section 6: "a resolved mapping of parameter names
to scalar values or unary/binary numeric functions"). The constructors
`rj j` / `cj j` stand for the string keys R1..Rn / C1..Cn. -/
inductive PKey where
  | numRCpairs | soc0 | capacity | ce | gamma | mass | isothermal
  | cp | tInf | hTherm | aTherm | ocv | mHyst | r0
  | rj (j : ℕ) | cj (j : ℕ)
deriving DecidableEq

/-- Modelled from the spec: a configuration value is a scalar, a flag, or a
unary/binary numeric function (OCV(soc), M(soc), R/C(soc, T)). -/
inductive PValue where
  | nat (n : ℕ)
  | num (q : ℚ)
  | flag (b : Bool)
  | fn1 (f : ℚ → ℚ)
  | fn2 (f : ℚ → ℚ → ℚ)

/-- A parameter mapping as handed to the `Model` constructor. -/
abbrev Config : Type := List (PKey × PValue)

/-- Modelled from the spec: the required key set for a declared RC-pair
count n is "exactly R0 plus Rj/Cj for j=1..n, OCV, M_hyst, gamma, ce, and
the scalar/thermal parameters" (spec section 6). -/
def requiredKeys (n : ℕ) : List PKey :=
  [PKey.numRCpairs, PKey.soc0, PKey.capacity, PKey.ce, PKey.gamma,
   PKey.mass, PKey.isothermal, PKey.cp, PKey.tInf, PKey.hTherm,
   PKey.aTherm, PKey.ocv, PKey.mHyst, PKey.r0]
  ++ (List.range n).flatMap (fun j => [PKey.rj (j + 1), PKey.cj (j + 1)])

/-- The keys present in a configuration mapping. -/
def keysOf (cfg : Config) : List PKey := cfg.map Prod.fst

/-- Two key lists describe the same key set (mutual inclusion). -/
def sameKeySet (a b : List PKey) : Bool :=
  (a.all fun k => decide (k ∈ b)) && (b.all fun k => decide (k ∈ a))

/-- First value stored under a key. -/
def findVal (cfg : Config) (k : PKey) : Option PValue :=
  (cfg.find? fun kv => decide (kv.1 = k)).map (·.2)

/-- Typed lookup of an integer-valued parameter. -/
def findNat (cfg : Config) (k : PKey) : Option ℕ :=
  match findVal cfg k with
  | some (PValue.nat n) => some n
  | _ => none

/-- Typed lookup of a scalar parameter. -/
def findQ (cfg : Config) (k : PKey) : Option ℚ :=
  match findVal cfg k with
  | some (PValue.num q) => some q
  | _ => none

/-- Typed lookup of a boolean parameter. -/
def findFlag (cfg : Config) (k : PKey) : Option Bool :=
  match findVal cfg k with
  | some (PValue.flag b) => some b
  | _ => none

/-- Typed lookup of a unary functional parameter. -/
def findFn1 (cfg : Config) (k : PKey) : Option (ℚ → ℚ) :=
  match findVal cfg k with
  | some (PValue.fn1 f) => some f
  | _ => none

/-- Typed lookup of a binary functional parameter. -/
def findFn2 (cfg : Config) (k : PKey) : Option (ℚ → ℚ → ℚ) :=
  match findVal cfg k with
  | some (PValue.fn2 f) => some f
  | _ => none

/-- Modelled from the spec: the validated static + functional circuit
parameters of a model (spec section 3, ParameterSet). `rj`/`cj` index the
per-branch resistance/capacitance functions by branch number 1..numRC. -/
structure Params where
  numRC : ℕ
  soc0 : ℚ
  capacity : ℚ
  ce : ℚ
  gamma : ℚ
  mass : ℚ
  isothermal : Bool
  cp : ℚ
  tInf : ℚ
  hTherm : ℚ
  aTherm : ℚ
  ocv : ℚ → ℚ
  mHyst : ℚ → ℚ
  r0 : ℚ → ℚ → ℚ
  rj : ℕ → ℚ → ℚ → ℚ
  cj : ℕ → ℚ → ℚ → ℚ

/-- Typed extraction of every field other than the key-set check. -/
def buildParams (cfg : Config) (n : ℕ) : Option Params :=
  match findQ cfg PKey.soc0, findQ cfg PKey.capacity, findQ cfg PKey.ce,
        findQ cfg PKey.gamma, findQ cfg PKey.mass,
        findFlag cfg PKey.isothermal, findQ cfg PKey.cp,
        findQ cfg PKey.tInf, findQ cfg PKey.hTherm, findQ cfg PKey.aTherm,
        findFn1 cfg PKey.ocv, findFn1 cfg PKey.mHyst,
        findFn2 cfg PKey.r0 with
  | some s0, some cap, some ceV, some gam, some ms, some iso, some cpV,
    some ti, some ht, some ha, some ocvF, some mF, some r0F =>
      some { numRC := n, soc0 := s0, capacity := cap, ce := ceV,
             gamma := gam, mass := ms, isothermal := iso, cp := cpV,
             tInf := ti, hTherm := ht, aTherm := ha, ocv := ocvF,
             mHyst := mF, r0 := r0F,
             rj := fun j => (findFn2 cfg (PKey.rj j)).getD (fun _ _ => 0),
             cj := fun j => (findFn2 cfg (PKey.cj j)).getD (fun _ _ => 0) }
  | _, _, _, _, _, _, _, _, _, _, _, _, _ => none

/-- Error message used when the key set does not match the declared
RC-pair count. -/
def keyErrMsg : String := "params contains invalid and/or excess key/value pairs"

/-- Error message used when num_RC_pairs is absent or mistyped. -/
def numErrMsg : String := "params is missing an integer num_RC_pairs entry"

/-- Error message used when a present key holds a value of the wrong type. -/
def typeErrMsg : String := "params contains a value of the wrong type"

/-- Modelled from the spec: `Model.__init__` validation. Construction
requires the key set to match the declared RC-pair count exactly
("functional parameter count for R/C must equal declared RC-pair count
exactly", spec section 3; "'params' contains invalid and/or excess
key/value pairs" in the API reference). Raising is modelled by `Except`. -/
def mkParams (cfg : Config) : Except String Params :=
  match findNat cfg PKey.numRCpairs with
  | none => Except.error numErrMsg
  | some n =>
    if sameKeySet (keysOf cfg) (requiredKeys n) then
      match buildParams cfg n with
      | some p => Except.ok p
      | none => Except.error typeErrMsg
    else Except.error keyErrMsg

/-! ## State vector layout

Modelled from the spec, section 4.1 (State Vector Layout contract): "given
RC-pair count n, deterministically assigns index 0 to SOC, index 1 to
hysteresis, indices 2..n+1 to RC overpotentials in branch order, index n+2
to temperature", and section 3 (StateVector): "temperature slot present
even if isothermal, clamped". -/

/-- Index of SOC in the state vector. -/
def ptrSoc : ℕ := 0

/-- Index of the hysteresis state in the state vector. -/
def ptrHyst : ℕ := 1

/-- Index of the j-th RC overpotential (j = 0-based branch order). -/
def ptrEta (j : ℕ) : ℕ := 2 + j

/-- Index of cell temperature, for RC-pair count n. -/
def ptrTemp (n : ℕ) : ℕ := n + 2

/-- Total state-vector dimension for RC-pair count n. The temperature slot
is present even for isothermal models (spec section 3); isothermal only
clamps its rate to zero. -/
def svSize (n : ℕ) : ℕ := n + 3

/-- SOC entry of a state vector. -/
def svSoc (sv : List ℚ) : ℚ := sv.getD ptrSoc 0

/-- Hysteresis entry of a state vector. -/
def svHyst (sv : List ℚ) : ℚ := sv.getD ptrHyst 0

/-- j-th RC overpotential entry of a state vector (0-based). -/
def svEta (sv : List ℚ) (j : ℕ) : ℚ := sv.getD (ptrEta j) 0

/-- Temperature entry of a state vector for RC-pair count n. -/
def svTemp (n : ℕ) (sv : List ℚ) : ℚ := sv.getD (ptrTemp n) 0

/-- Modelled from the spec: the rested initial condition at soc0 — zero
current, zero hysteresis, equilibrium (zero) overpotentials, ambient
temperature (glossary: "Rested condition"). -/
def rested (p : Params) : List ℚ :=
  p.soc0 :: (0 : ℚ) :: (List.replicate p.numRC (0 : ℚ) ++ [p.tInf])

/-! ## Residual / RHS builder (spec section 4.2) -/

/-- Modelled from the spec: Coulombic efficiency is "forced to 1 when I > 0
(discharge sign convention: positive current discharges)". -/
def etaCE (p : Params) (cur : ℚ) : ℚ := if 0 < cur then 1 else p.ce

/-- Sign function used by the hysteresis rate (sign 0 = 0, so the rate is
0 for exactly zero current, as the spec requires). -/
def sgn (q : ℚ) : ℚ := if 0 < q then 1 else if q < 0 then -1 else 0

/-- Modelled from the spec: SOC rate `-I*eta_ce / (3600*Q_max)`. -/
def socRate (p : Params) (cur : ℚ) : ℚ :=
  -(cur * etaCE p cur) / (3600 * p.capacity)

/-- Modelled from the spec: hysteresis rate
`|eta_ce*I*gamma / (3600*Q_max)| * (-sign(I)*M(soc) - h)`. -/
def hystRate (p : Params) (sv : List ℚ) (cur : ℚ) : ℚ :=
  |etaCE p cur * cur * p.gamma / (3600 * p.capacity)|
    * (-(sgn cur) * p.mHyst (svSoc sv) - svHyst sv)

/-- Modelled from the spec: RC overpotential rate
`-V_j/(R_j*C_j) + I/C_j`, R_j and C_j evaluated at current soc and
temperature (0-based branch index j, parameter functions numbered 1-based). -/
def etaRate (p : Params) (sv : List ℚ) (cur : ℚ) (j : ℕ) : ℚ :=
  -(svEta sv j) / (p.rj (j + 1) (svSoc sv) (svTemp p.numRC sv)
                    * p.cj (j + 1) (svSoc sv) (svTemp p.numRC sv))
    + cur / p.cj (j + 1) (svSoc sv) (svTemp p.numRC sv)

/-- Modelled from the spec: cell voltage
`OCV(soc) + h - sum_j V_j - I*R0(soc, T)` (spec section 4.2). Note: the
repository docs state the V_cell equation without the `+ h` term while
also describing the hysteresis voltage state; the spec, written from the
implementation, includes it. -/
def vCell (p : Params) (sv : List ℚ) (cur : ℚ) : ℚ :=
  p.ocv (svSoc sv) + svHyst sv
    - (((List.range p.numRC).map (fun j => svEta sv j)).sum)
    - cur * p.r0 (svSoc sv) (svTemp p.numRC sv)

/-- Modelled from the spec: temperature rate
`(Q_gen + Q_conv) / (mass*Cp)` with `Q_gen = I*(OCV(soc) + h - V_cell)`
and `Q_conv = h_therm*A_therm*(T_inf - T)`; clamped to zero when
isothermal. -/
def tempRate (p : Params) (sv : List ℚ) (cur : ℚ) : ℚ :=
  if p.isothermal then 0
  else
    (cur * (p.ocv (svSoc sv) + svHyst sv - vCell p sv cur)
      + p.hTherm * p.aTherm * (p.tInf - svTemp p.numRC sv))
    / (p.mass * p.cp)

/-- Modelled from the spec: the right-hand-side vector of the DAE system
in state-vector layout order (`Model.rhs_funcs`). -/
def rhsFuncs (p : Params) (sv : List ℚ) (cur : ℚ) : List ℚ :=
  socRate p cur :: hystRate p sv cur
    :: ((List.range p.numRC).map (etaRate p sv cur) ++ [tempRate p sv cur])

/-! ## Experiment step sequencer (spec section 4.5, `Experiment.add_step`) -/

/-- Decidable strict increase of a rational list (numpy check
`np.all(np.diff(tspan) > 0)`). -/
def incB : List ℚ → Bool
  | [] => true
  | [_] => true
  | a :: b :: r => (decide (a < b)) && incB (b :: r)

/-- Modelled from the spec: `np.linspace(0., t_max, count)` as used by
`add_step` for a `(t_max, count : int)` time-span shorthand. -/
def linspace (tMax : ℚ) (count : ℕ) : List ℚ :=
  if count ≤ 1 then List.replicate count 0
  else (List.range count).map (fun i : ℕ => tMax * (i : ℚ) / ((count : ℚ) - 1))

/-- Modelled from the spec: `np.arange(0., t_max, dt)` as used by
`add_step` for a `(t_max, dt : float)` shorthand: the multiples k*dt with
k*dt < t_max (empty for non-positive t_max or dt, matching numpy's empty
result for an empty range). -/
def arange (tMax dt : ℚ) : List ℚ :=
  if 0 < dt ∧ 0 < tMax then
    (List.range (Int.toNat (Int.ceil (tMax / dt)))).map (fun k : ℕ => (k : ℚ) * dt)
  else []

/-- Modelled from the spec: the three accepted forms of the `tspan`
argument of `add_step`: `(t_max, Nt : int)`, `(t_max, dt : float)`, or an
explicit 1D array. -/
inductive TspanSpec where
  | tupleN (tMax : ℚ) (count : ℕ)
  | tupleDt (tMax : ℚ) (dt : ℚ)
  | arr (ts : List ℚ)

/-- Modelled from the spec: normalization of a time-span specification.
For the `(t_max, dt)` form "'t_max' is also appended to the end", so the
literal maximum is always the final sample (changelog 0.1.1 bug fix). -/
def normTspan : TspanSpec → List ℚ
  | TspanSpec.tupleN tMax count => linspace tMax count
  | TspanSpec.tupleDt tMax dt => arange tMax dt ++ [tMax]
  | TspanSpec.arr ts => ts

/-- The allowed control modes of `add_step`. -/
def allowedModes : List String := ["current_A", "current_C", "voltage_V", "power_W"]

/-- The fixed observable vocabulary for step limits. -/
def allowedLimits : List String :=
  ["soc", "temperature_K", "current_A", "current_C", "voltage_V",
   "power_W", "capacity_Ah", "time_s", "time_min", "time_h"]

/-- Modelled from the spec: one experiment load step — control mode, load
value (a function of step-relative time; constants are constant
functions), normalized relative-time array, and stopping limits. -/
structure LoadStep where
  mode : String
  value : ℚ → ℚ
  tspan : List ℚ
  limits : List (String × ℚ)

/-- Modelled from the spec: an Experiment is an ordered list of load
steps, mutated only by `add_step` appends. -/
structure Experiment where
  steps : List LoadStep

/-- Number of stored steps (`Experiment.num_steps`). -/
def Experiment.numSteps (e : Experiment) : ℕ := e.steps.length

/-- The validation errors `add_step` can raise for representable inputs. -/
inductive StepError where
  | badMode
  | badLimit
  | tspanStart
  | tspanLen
  | tspanMono
deriving DecidableEq

/-- Modelled from the spec: `Experiment.add_step`. Validates the control
mode against the allowed set and every limit name against the fixed
observable vocabulary; an explicit time array must start at zero, have
length at least two and be monotonically (strictly) increasing. The raise
conditions for arrays are documented "when given an array"; the tuple
shorthands are normalized without those checks. Raising is modelled by
`Except`; validation precedes the append, so a failed call leaves the
experiment unchanged. -/
def addStep (e : Experiment) (mode : String) (value : ℚ → ℚ)
    (ts : TspanSpec) (lims : List (String × ℚ)) : Except StepError Experiment :=
  if mode ∈ allowedModes then
    if lims.all (fun nv => decide (nv.1 ∈ allowedLimits)) then
      match ts with
      | TspanSpec.arr a =>
        if a.headD 1 = 0 then
          if 2 ≤ a.length then
            if incB a then Except.ok ⟨e.steps ++ [⟨mode, value, a, lims⟩]⟩
            else Except.error StepError.tspanMono
          else Except.error StepError.tspanLen
        else Except.error StepError.tspanStart
      | t => Except.ok ⟨e.steps ++ [⟨mode, value, normTspan t, lims⟩]⟩
    else Except.error StepError.badLimit
  else Except.error StepError.badMode

/-- The validity condition on `add_step` inputs, as a proposition. -/
def validStepInputs (mode : String) (ts : TspanSpec) (lims : List (String × ℚ)) : Prop :=
  mode ∈ allowedModes ∧ (∀ nv ∈ lims, nv.1 ∈ allowedLimits) ∧
  match ts with
  | TspanSpec.arr a =>
      a.headD 1 = 0 ∧ 2 ≤ a.length ∧ List.Chain' (fun x y : ℚ => x < y) a
  | _ => True

/-! ## Solutions and stitching (spec sections 3 and 4.6) -/

/-- Modelled from the spec: a single-step solution — the step's time
samples and a dictionary-like mapping of named observable series, plus the
success flag of the solve. -/
structure StepSolution where
  t : List ℚ
  vars : List (String × List ℚ)
  success : Bool
deriving Repr

/-- First series stored under an observable name. -/
def lookupSeries (nm : String) (vars : List (String × List ℚ)) : Option (List ℚ) :=
  (vars.find? fun nv => decide (nv.1 = nm)).map (·.2)

/-- Series of an observable with empty default. -/
def seriesOf (nm : String) (s : StepSolution) : List ℚ :=
  (lookupSeries nm s.vars).getD []

/-- The observable names whose series are stored in absolute-time units
and therefore shift when steps are stitched. -/
def timeNames : List String := ["time_s", "time_min", "time_h"]

/-- Shift a named series by a step's stitching offset: time series move by
the offset (in their unit); all other observables are unchanged. -/
def shiftSeries (nm : String) (off : ℚ) (ser : List ℚ) : List ℚ :=
  if nm = "time_s" then ser.map (· + off)
  else if nm = "time_min" then ser.map (· + off / 60)
  else if nm = "time_h" then ser.map (· + off / 3600)
  else ser

/-- Modelled from the spec: the per-step shifted time segments of a
stitched cycle. The first step keeps its times; each subsequent step is
shifted so that its first sample lands `t_shift` after the previous step's
last sample ("If zero the end time of each step overlaps the starting time
of its following step"). -/
def segT (tShift off : ℚ) : List StepSolution → List (List ℚ)
  | [] => []
  | s :: rest => s.t.map (· + off) :: segT tShift (off + s.t.getLastD 0 + tShift) rest

/-- The cumulative stitching offset applied to step i. -/
def cumOff (tShift off : ℚ) : List StepSolution → ℕ → ℚ
  | [], _ => off
  | _ :: _, 0 => off
  | s :: rest, (i + 1) => cumOff tShift (off + s.t.getLastD 0 + tShift) rest i

/-- The per-step shifted segments of one named observable series. -/
def segVar (tShift off : ℚ) (nm : String) : List StepSolution → List (List ℚ)
  | [] => []
  | s :: rest =>
      shiftSeries nm off (seriesOf nm s)
        :: segVar tShift (off + s.t.getLastD 0 + tShift) nm rest

/-- The stitched cycle time array. -/
def stitchTimes (tShift : ℚ) (sols : List StepSolution) : List ℚ :=
  (segT tShift 0 sols).flatten

/-- Observable names of a stitched solution (taken from the first step). -/
def varNamesOf (sols : List StepSolution) : List String :=
  match sols with
  | [] => []
  | s :: _ => s.vars.map (·.1)

/-- Modelled from the spec: a CycleSolution — the ordered StepSolutions it
was stitched from, the shift epsilon, and the stitched time array and
observable series. -/
structure CycleSolution where
  sols : List StepSolution
  tShift : ℚ
  t : List ℚ
  vars : List (String × List ℚ)

/-- Modelled from the spec: CycleSolution construction (stitching). -/
def mkCycle (tShift : ℚ) (sols : List StepSolution) : CycleSolution :=
  { sols := sols
    tShift := tShift
    t := stitchTimes tShift sols
    vars := (varNamesOf sols).map fun nm => (nm, (segVar tShift 0 nm sols).flatten) }

/-- Modelled from the spec: appending a further StepSolution to an
existing CycleSolution re-stitches with the same shift epsilon. -/
def appendSol (c : CycleSolution) (s : StepSolution) : CycleSolution :=
  mkCycle c.tShift (c.sols ++ [s])

/-- Number of stitched samples preceding step i. -/
def tStartIdx (sols : List StepSolution) (i : ℕ) : ℕ :=
  ((sols.take i).map (fun s => s.t.length)).sum

/-- Modelled from the spec: `CycleSolution.get_steps` with an integer
index — slice step i's samples back out of the stitched arrays. -/
def getStepSol (c : CycleSolution) (i : ℕ) : StepSolution :=
  let len := ((c.sols.get? i).map (fun s => s.t.length)).getD 0
  { t := (c.t.drop (tStartIdx c.sols i)).take len
    vars := c.vars.map (fun nv => (nv.1, (nv.2.drop (tStartIdx c.sols i)).take len))
    success := true }

/-- Modelled from the spec: `CycleSolution.get_steps` with a
(first, last) tuple — re-stitch the contiguous range of steps into a new
CycleSolution. -/
def getStepsRange (c : CycleSolution) (ab : ℕ × ℕ) : CycleSolution :=
  mkCycle c.tShift ((c.sols.drop ab.1).take (ab.2 + 1 - ab.1))

/-! ## Step executor (spec section 4.4) and external solver interface -/

/-- Modelled from the spec: a Model owns one ParameterSet and one live
state vector. -/
structure Model where
  prm : Params
  state : List ℚ

/-- The current function imposed by a step's control mode, when the mode
fixes the current exogenously (`current_A` in amps, `current_C` scaled by
capacity); voltage/power control leaves the current implicit. -/
def stepCurrentFn (p : Params) (st : LoadStep) : Option (ℚ → ℚ) :=
  if st.mode = "current_A" then some st.value
  else if st.mode = "current_C" then some (fun t => st.value t * p.capacity)
  else none

/-- The current function used when assembling observables (zero fallback
for modes whose current would come back from the implicit solve). -/
def curOf (p : Params) (st : LoadStep) : ℚ → ℚ :=
  (stepCurrentFn p st).getD (fun _ => 0)

/-- Modelled from the spec: the inputs handed to the external DAE solver
for one step. -/
structure SolveInput where
  prm : Params
  step : LoadStep
  y0 : List ℚ

/-- Modelled from the spec: the integration-failure taxonomy (solver
non-convergence, exceeded step limits, NaN/Inf in residual), plus modes
the concrete stand-in integrator does not support. -/
inductive SolverErr where
  | nonConvergence
  | maxSteps
  | nanResidual
  | unsupportedMode
deriving DecidableEq

/-- Modelled from the spec: raw solver output — times and states. -/
structure RawResult where
  t : List ℚ
  states : List (List ℚ)

/-- The external solve call contract (spec section 6). -/
def SolveFn : Type := SolveInput → Except SolverErr RawResult

/-- One explicit-Euler update between consecutive sample times. -/
def eulerUpdate (p : Params) (cur : ℚ → ℚ) (sv : List ℚ) (t1 t2 : ℚ) : List ℚ :=
  List.zipWith (fun y r => y + (t2 - t1) * r) sv (rhsFuncs p sv (cur t1))

/-- States at each sample time of an explicit-Euler march. -/
def eulerMarch (p : Params) (cur : ℚ → ℚ) : List ℚ → List ℚ → List (List ℚ)
  | _, [] => []
  | sv, [_] => [sv]
  | sv, t1 :: t2 :: rest =>
      sv :: eulerMarch p cur (eulerUpdate p cur sv t1 t2) (t2 :: rest)

/-- The concrete stand-in for the external solver: explicit Euler on the
spec's RHS over the step's relative-time array. Exact for the
constant-rate systems used in the scenario claims. -/
def eulerSolve : SolveFn := fun inp =>
  match stepCurrentFn inp.prm inp.step with
  | none => Except.error SolverErr.unsupportedMode
  | some cur => Except.ok ⟨inp.step.tspan, eulerMarch inp.prm cur inp.y0 inp.step.tspan⟩

/-- Modelled from the spec: the solution assembler (spec section 4.6) —
"a dictionary-like mapping of named physical observables (time in multiple
units, current, voltage, power, SOC, capacity throughput, temperature,
per-branch overpotentials)". -/
def observables (p : Params) (cur : ℚ → ℚ) (ts : List ℚ) (states : List (List ℚ)) :
    List (String × List ℚ) :=
  [("time_s", ts), ("time_min", ts.map (· / 60)), ("time_h", ts.map (· / 3600)),
   ("current_A", ts.map cur),
   ("voltage_V", (states.zip ts).map (fun st => vCell p st.1 (cur st.2))),
   ("power_W", (states.zip ts).map (fun st => cur st.2 * vCell p st.1 (cur st.2))),
   ("soc", states.map svSoc),
   ("capacity_Ah", states.map (fun sv => (p.soc0 - svSoc sv) * p.capacity)),
   ("temperature_K", states.map (svTemp p.numRC))]
  ++ (List.range p.numRC).map
      (fun j => ("eta" ++ toString (j + 1) ++ "_V", states.map (fun sv => svEta sv j)))

/-- Modelled from the spec: `Model.run_step` against an explicit external
solver. On success the live state commits to the final reached state and a
StepSolution is returned; on solver failure the error propagates from the
single solve call and the live state is untouched (no partial commit, no
retry). -/
def runStepWith (solve : SolveFn) (m : Model) (st : LoadStep) :
    Except SolverErr StepSolution × Model :=
  match solve ⟨m.prm, st, m.state⟩ with
  | Except.error e => (Except.error e, m)
  | Except.ok r =>
      (Except.ok { t := r.t, vars := observables m.prm (curOf m.prm st) r.t r.states,
                   success := true },
       { m with state := r.states.getLastD m.state })

/-- `Model.run_step` with the concrete stand-in integrator. -/
def runStep (m : Model) (st : LoadStep) : Except SolverErr StepSolution × Model :=
  runStepWith eulerSolve m st

/-- Sequential execution of all steps, threading the live state; stops at
the first failed step, leaving the state at the last good state. -/
def runSteps (m : Model) : List LoadStep → List StepSolution × Option SolverErr × Model
  | [] => ([], none, m)
  | st :: rest =>
    match runStep m st with
    | (Except.error e, m1) => ([], some e, m1)
    | (Except.ok s, m1) =>
      match runSteps m1 rest with
      | (ss, err, m2) => (s :: ss, err, m2)

/-- Modelled from the spec: `Model.run` — run every step in order,
stitch the StepSolutions into a CycleSolution, and with
`reset_state = true` (the default) reset the live state back to the rested
initial condition at soc0 at completion. -/
def run (m : Model) (e : Experiment) (resetState : Bool) (tShift : ℚ) :
    Except SolverErr CycleSolution × Model :=
  match runSteps m e.steps with
  | (_, some err, m1) => (Except.error err, m1)
  | (ss, none, m1) =>
      (Except.ok (mkCycle tShift ss),
       if resetState then { m1 with state := rested m1.prm } else m1)

/-! ## Event detector (spec section 4.3) -/

/-- Modelled from the spec: the signed zero-crossing expression for one
declared limit of the active step. `tStart` is the total experiment time
accumulated by all previous steps and `tRel` the step-relative time:
"Time limits are in reference to total experiment time" (API reference),
so the three time limits compare threshold against `tStart + tRel` in
their units, while every other limit reads the instantaneous observables. -/
def limitEventVal (p : Params) (tStart : ℚ) (nm : String) (thr : ℚ)
    (tRel : ℚ) (sv : List ℚ) (curv : ℚ) : ℚ :=
  if nm = "time_s" then (tStart + tRel) - thr
  else if nm = "time_min" then (tStart + tRel) / 60 - thr
  else if nm = "time_h" then (tStart + tRel) / 3600 - thr
  else if nm = "soc" then svSoc sv - thr
  else if nm = "temperature_K" then svTemp p.numRC sv - thr
  else if nm = "current_A" then curv - thr
  else if nm = "current_C" then curv / p.capacity - thr
  else if nm = "voltage_V" then vCell p sv curv - thr
  else if nm = "power_W" then curv * vCell p sv curv - thr
  else if nm = "capacity_Ah" then (p.soc0 - svSoc sv) * p.capacity - thr
  else 0

/-! ## Concrete instances used by the scenario claims and witnesses -/

/-- A valid 0-RC isothermal configuration: the scenario of spec section 8
(capacity 75 Ah, constant R0 = 0.01 Ohm, constant OCV = 3.5 V). -/
def cfg0 : Config :=
  [(PKey.numRCpairs, PValue.nat 0), (PKey.soc0, PValue.num 1),
   (PKey.capacity, PValue.num 75), (PKey.ce, PValue.num 1),
   (PKey.gamma, PValue.num 0), (PKey.mass, PValue.num 1),
   (PKey.isothermal, PValue.flag true), (PKey.cp, PValue.num 1),
   (PKey.tInf, PValue.num 300), (PKey.hTherm, PValue.num 0),
   (PKey.aTherm, PValue.num 0), (PKey.ocv, PValue.fn1 (fun _ => 7/2)),
   (PKey.mHyst, PValue.fn1 (fun _ => 0)),
   (PKey.r0, PValue.fn2 (fun _ _ => 1/100))]

/-- The parameter set produced from `cfg0`. -/
def p0c : Params :=
  { numRC := 0, soc0 := 1, capacity := 75, ce := 1, gamma := 0, mass := 1,
    isothermal := true, cp := 1, tInf := 300, hTherm := 0, aTherm := 0,
    ocv := fun _ => 7/2, mHyst := fun _ => 0, r0 := fun _ _ => 1/100,
    rj := fun j => (findFn2 cfg0 (PKey.rj j)).getD (fun _ _ => 0),
    cj := fun j => (findFn2 cfg0 (PKey.cj j)).getD (fun _ _ => 0) }

/-- `cfg0` with an extra first-branch resistance key: one R/C function too
many for the declared RC-pair count 0. -/
def cfgBad : Config := cfg0 ++ [(PKey.rj 1, PValue.fn2 (fun _ _ => 1))]

/-- A valid 1-RC configuration used as a construction witness. -/
def cfg1 : Config :=
  [(PKey.numRCpairs, PValue.nat 1), (PKey.soc0, PValue.num (1/2)),
   (PKey.capacity, PValue.num 10), (PKey.ce, PValue.num 1),
   (PKey.gamma, PValue.num 2), (PKey.mass, PValue.num 1),
   (PKey.isothermal, PValue.flag false), (PKey.cp, PValue.num 1),
   (PKey.tInf, PValue.num 300), (PKey.hTherm, PValue.num 1),
   (PKey.aTherm, PValue.num 1), (PKey.ocv, PValue.fn1 (fun s => 3 + s)),
   (PKey.mHyst, PValue.fn1 (fun _ => 1/20)),
   (PKey.r0, PValue.fn2 (fun _ _ => 1/100)),
   (PKey.rj 1, PValue.fn2 (fun _ _ => 1/50)),
   (PKey.cj 1, PValue.fn2 (fun _ _ => 1000))]

/-- The parameter set produced from `cfg1`. -/
def p1c : Params :=
  { numRC := 1, soc0 := 1/2, capacity := 10, ce := 1, gamma := 2, mass := 1,
    isothermal := false, cp := 1, tInf := 300, hTherm := 1, aTherm := 1,
    ocv := fun s => 3 + s, mHyst := fun _ => 1/20, r0 := fun _ _ => 1/100,
    rj := fun j => (findFn2 cfg1 (PKey.rj j)).getD (fun _ _ => 0),
    cj := fun j => (findFn2 cfg1 (PKey.cj j)).getD (fun _ _ => 0) }

/-- The scenario step of spec section 8: constant 75 A discharge for
3600 s, three evenly spaced samples. -/
def step9 : LoadStep :=
  { mode := "current_A", value := fun _ => 75, tspan := [0, 1800, 3600],
    limits := [] }

/-- A small constant-current step used by the run round-trip witness. -/
def stepW : LoadStep :=
  { mode := "current_A", value := fun _ => 3, tspan := [0, 1], limits := [] }

/-- A one-step experiment used by the run round-trip witness. -/
def expW : Experiment := ⟨[stepW]⟩

/-- The empty experiment. -/
def expEmpty : Experiment := ⟨[]⟩

/-- A two-sample StepSolution with no observables (stitching
counterexample input). -/
def solPlain : StepSolution := { t := [0, 1], vars := [], success := true }

/-- First stitching-witness step: two samples with a soc series. -/
def solA : StepSolution :=
  { t := [0, 1], vars := [("soc", [1, 9/10])], success := true }

/-- Second stitching-witness step: two samples with a soc series. -/
def solB : StepSolution :=
  { t := [0, 1], vars := [("soc", [9/10, 8/10])], success := true }

/-- A stitched two-step cycle used by the get_steps witness. -/
def cyc7 : CycleSolution := mkCycle (1/1000) [solA, solB]

/-- A solver stand-in that always fails (exceeded step limit). -/
def failSolve : SolveFn := fun _ => Except.error SolverErr.maxSteps

/-- A solver stand-in returning a fixed one-sample result. -/
def okSolve : SolveFn := fun _ => Except.ok ⟨[0], [[5, 0, 300]]⟩

/-! ## General lemmas -/

/-- `incB` decides strict increase in the `List.Chain'` sense. -/
theorem incB_iff : ∀ l : List ℚ, incB l = true ↔ List.Chain' (fun a b : ℚ => a < b) l
  | [] => by simp [incB]
  | [_] => by simp [incB]
  | a :: b :: r => by
    rw [incB, Bool.and_eq_true, decide_eq_true_iff, incB_iff (b :: r)]
    constructor
    · rintro ⟨h1, h2⟩
      exact List.Chain'.cons h1 h2
    · intro h
      exact ⟨List.Chain'.rel_head h, h.tail⟩

/-- `buildParams` copies the declared RC-pair count. -/
theorem buildParams_numRC (cfg : Config) (n : ℕ) (p : Params)
    (h : buildParams cfg n = some p) : p.numRC = n := by
  unfold buildParams at h
  split at h
  · cases h
    rfl
  · cases h

/-- Inversion of a successful construction: the declared count was found,
the key set matched it, and the fields were extracted. -/
theorem mkParams_ok_inv (cfg : Config) (p : Params)
    (h : mkParams cfg = Except.ok p) :
    ∃ n, findNat cfg PKey.numRCpairs = some n ∧
      sameKeySet (keysOf cfg) (requiredKeys n) = true ∧
      buildParams cfg n = some p := by
  unfold mkParams at h
  split at h
  · cases h
  · rename_i n hn
    split at h
    · rename_i hkeys
      split at h
      · rename_i p' hp
        cases h
        exact ⟨n, hn, hkeys, hp⟩
      · cases h
    · cases h

/-- The rested state vector has the layout dimension n + 3. -/
theorem rested_length (p : Params) : (rested p).length = svSize p.numRC := by
  simp [rested, svSize]

/-- The key R(n+1) is not required for an n-pair model: supplying an
extra pair makes the key sets differ. -/
theorem rj_succ_not_required (n : ℕ) : PKey.rj (n + 1) ∉ requiredKeys n := by
  simp only [requiredKeys, List.mem_append, List.mem_flatMap, List.mem_range]
  rintro (h | ⟨i, hi, h⟩)
  · simp at h
  · simp at h
    omega

/-- Every key R(j), 1 ≤ j ≤ n, is required for an n-pair model: omitting
one pair makes the key sets differ. -/
theorem rj_required (j n : ℕ) (h1 : 1 ≤ j) (h2 : j ≤ n) :
    PKey.rj j ∈ requiredKeys n := by
  simp only [requiredKeys, List.mem_append, List.mem_flatMap, List.mem_range]
  right
  exact ⟨j - 1, by omega, by simp; omega⟩

/-! ## C1: state-vector dimension, layout, and R/C pair-count requirement -/

/-- C1 (amended): for every configuration accepted by Model construction,
the state vector has dimension exactly numRC + 3 — for isothermal models
as well, whose temperature slot is kept and clamped — laid out with
index 0 = SOC, index 1 = hysteresis, indices 2..n+1 = RC overpotentials in
branch order, and index n+2 = temperature; and construction succeeds only
when the supplied key set matches the declared RC-pair count exactly
(R1..Rn and C1..Cn in addition to R0), so that a configuration whose keys
do not match — one pair omitted or an extra pair supplied — raises the
key-set configuration error. -/
theorem model_layout_and_pair_requirement (cfg : Config) :
    (∀ p : Params, mkParams cfg = Except.ok p →
      (rested p).length = svSize p.numRC ∧
      svSize p.numRC = p.numRC + 3 ∧
      ptrSoc = 0 ∧ ptrHyst = 1 ∧ (∀ j, ptrEta j = 2 + j) ∧
      ptrTemp p.numRC = p.numRC + 2 ∧
      sameKeySet (keysOf cfg) (requiredKeys p.numRC) = true) ∧
    (∀ n, findNat cfg PKey.numRCpairs = some n →
      sameKeySet (keysOf cfg) (requiredKeys n) = false →
      mkParams cfg = Except.error keyErrMsg) ∧
    (∀ n, PKey.rj (n + 1) ∉ requiredKeys n) ∧
    (∀ j n, 1 ≤ j → j ≤ n → PKey.rj j ∈ requiredKeys n) := by
  refine ⟨?_, ?_, rj_succ_not_required, rj_required⟩
  · intro p hok
    obtain ⟨n, hn, hkeys, hbuild⟩ := mkParams_ok_inv cfg p hok
    have hnum : p.numRC = n := buildParams_numRC cfg n p hbuild
    subst hnum
    exact ⟨rested_length p, rfl, rfl, rfl, fun _ => rfl, rfl, hkeys⟩
  · intro n hn hbad
    unfold mkParams
    rw [hn]
    simp [hbad]

/-- C1 counterexample to the claim as stated: a valid isothermal 0-RC
configuration is accepted and yields a state vector of dimension 3 =
n + 3, not n + 2 = 2: the isothermal flag does not shrink the state. -/
theorem model_isothermal_dim_counterexample :
    (mkParams cfg0).map (fun p => ((rested p).length, p.isothermal))
      = Except.ok (3, true) ∧ (3 : ℕ) ≠ 2 := by
  constructor
  · rfl
  · decide

/-- C1 witness: concrete 1-RC construction satisfying the layout facts,
and a concrete rejected configuration carrying one extra R/C function. -/
theorem model_layout_witness :
    ((rested p1c).length = svSize p1c.numRC ∧
      sameKeySet (keysOf cfg1) (requiredKeys p1c.numRC) = true) ∧
    mkParams cfgBad = Except.error keyErrMsg := by
  constructor
  · have h := (model_layout_and_pair_requirement cfg1).1 p1c (by rfl)
    exact ⟨h.1, h.2.2.2.2.2.2⟩
  · exact (model_layout_and_pair_requirement cfgBad).2.1 0 (by rfl) (by rfl)

/-! ## C5: add_step validation is exact and mutation-free -/

/-- C5: `add_step` succeeds exactly when the inputs are valid — the
control mode is in the allowed set, every limit name is in the fixed
observable vocabulary, and an explicit time array starts at 0, has length
at least two and is strictly increasing — and on success exactly one step
(with the normalized time span) is appended, so num_steps grows by one.
In this functional embedding a failed call returns only the error, so the
stored step list is untouched (validation precedes the append). -/
theorem addStep_validation (e : Experiment) (mode : String) (value : ℚ → ℚ)
    (ts : TspanSpec) (lims : List (String × ℚ)) :
    ((addStep e mode value ts lims).isOk = true ↔ validStepInputs mode ts lims) ∧
    (∀ e2, addStep e mode value ts lims = Except.ok e2 →
      e2.steps = e.steps ++ [⟨mode, value, normTspan ts, lims⟩] ∧
      e2.numSteps = e.numSteps + 1) := by
  have hlim : (lims.all fun nv => decide (nv.1 ∈ allowedLimits)) = true ↔
      ∀ nv ∈ lims, nv.1 ∈ allowedLimits := by
    rw [List.all_eq_true]
    constructor
    · intro h nv hnv
      exact decide_eq_true_iff.mp (h nv hnv)
    · intro h nv hnv
      exact decide_eq_true_iff.mpr (h nv hnv)
  unfold addStep validStepInputs
  cases ts with
  | arr a =>
    dsimp only
    split_ifs with hm hl h0 hlen hmono
    · refine ⟨⟨fun _ => ⟨hm, hlim.mp hl, h0, hlen, (incB_iff a).mp hmono⟩,
        fun _ => rfl⟩, ?_⟩
      intro e2 he2
      cases he2
      exact ⟨rfl, by simp [Experiment.numSteps]⟩
    · refine ⟨⟨fun h => absurd h (by simp [Except.isOk, Except.toBool]), ?_⟩, fun e2 he2 => by cases he2⟩
      rintro ⟨_, _, _, _, hch⟩
      exact absurd ((incB_iff a).mpr hch) hmono
    · refine ⟨⟨fun h => absurd h (by simp [Except.isOk, Except.toBool]), ?_⟩, fun e2 he2 => by cases he2⟩
      rintro ⟨_, _, _, hle, _⟩
      exact absurd hle hlen
    · refine ⟨⟨fun h => absurd h (by simp [Except.isOk, Except.toBool]), ?_⟩, fun e2 he2 => by cases he2⟩
      rintro ⟨_, _, hh0, _, _⟩
      exact absurd hh0 h0
    · refine ⟨⟨fun h => absurd h (by simp [Except.isOk, Except.toBool]), ?_⟩, fun e2 he2 => by cases he2⟩
      rintro ⟨_, hall, _⟩
      exact absurd (hlim.mpr hall) hl
    · refine ⟨⟨fun h => absurd h (by simp [Except.isOk, Except.toBool]), ?_⟩, fun e2 he2 => by cases he2⟩
      rintro ⟨hmm, _⟩
      exact absurd hmm hm
  | tupleN tMax count =>
    dsimp only
    split_ifs with hm hl
    · refine ⟨⟨fun _ => ⟨hm, hlim.mp hl, trivial⟩, fun _ => rfl⟩, ?_⟩
      intro e2 he2
      cases he2
      exact ⟨rfl, by simp [Experiment.numSteps]⟩
    · refine ⟨⟨fun h => absurd h (by simp [Except.isOk, Except.toBool]), ?_⟩, fun e2 he2 => by cases he2⟩
      rintro ⟨_, hall, _⟩
      exact absurd (hlim.mpr hall) hl
    · refine ⟨⟨fun h => absurd h (by simp [Except.isOk, Except.toBool]), ?_⟩, fun e2 he2 => by cases he2⟩
      rintro ⟨hmm, _⟩
      exact absurd hmm hm
  | tupleDt tMax dt =>
    dsimp only
    split_ifs with hm hl
    · refine ⟨⟨fun _ => ⟨hm, hlim.mp hl, trivial⟩, fun _ => rfl⟩, ?_⟩
      intro e2 he2
      cases he2
      exact ⟨rfl, by simp [Experiment.numSteps]⟩
    · refine ⟨⟨fun h => absurd h (by simp [Except.isOk, Except.toBool]), ?_⟩, fun e2 he2 => by cases he2⟩
      rintro ⟨_, hall, _⟩
      exact absurd (hlim.mpr hall) hl
    · refine ⟨⟨fun h => absurd h (by simp [Except.isOk, Except.toBool]), ?_⟩, fun e2 he2 => by cases he2⟩
      rintro ⟨hmm, _⟩
      exact absurd hmm hm

/-- C5 witness: a concrete valid call appends exactly one step, and a
concrete invalid mode is rejected. -/
theorem addStep_validation_witness :
    (addStep expEmpty "current_A" (fun _ => 1) (TspanSpec.arr [0, 1]) []).isOk = true ∧
    (addStep expEmpty "resistance_Ohm" (fun _ => 1) (TspanSpec.arr [0, 1]) []).isOk = false := by
  constructor
  · exact (addStep_validation expEmpty "current_A" (fun _ => 1)
      (TspanSpec.arr [0, 1]) []).1.mpr
      ⟨by decide, by simp, by decide, by decide, (incB_iff [0, 1]).mp (by decide)⟩
  · have h := (addStep_validation expEmpty "resistance_Ohm" (fun _ => 1)
      (TspanSpec.arr [0, 1]) []).1
    by_contra hok
    have : validStepInputs "resistance_Ohm" (TspanSpec.arr [0, 1]) [] :=
      h.mp (by revert hok; cases haddr : (addStep expEmpty "resistance_Ohm" (fun _ => 1) (TspanSpec.arr [0, 1]) []).isOk <;> simp)
    exact absurd this.1 (by decide)

/-! ## C4: time-span normalization -/

/-- A mapped range is a strict chain when the generator is locally
increasing. -/
theorem chain_lt_map_range (f : ℕ → ℚ) (n : ℕ)
    (hf : ∀ i, i + 1 < n → f i < f (i + 1)) :
    List.Chain' (fun a b : ℚ => a < b) ((List.range n).map f) := by
  cases n with
  | zero => simp
  | succ m =>
    rw [List.chain'_map]
    rw [List.chain'_range_succ]
    intro i hi
    exact hf i (by omega)

/-- The sample count of `np.arange(0, tMax, dt)` for positive bounds. -/
def arangeLen (tMax dt : ℚ) : ℕ := (Int.ceil (tMax / dt)).toNat

/-- `arange` unfolds to a mapped range for positive bounds. -/
theorem arange_eq (tMax dt : ℚ) (ht : 0 < tMax) (hdt : 0 < dt) :
    arange tMax dt = (List.range (arangeLen tMax dt)).map (fun k : ℕ => (k : ℚ) * dt) := by
  unfold arange arangeLen
  rw [if_pos ⟨hdt, ht⟩]

/-- `arange` has at least its zero sample for positive bounds. -/
theorem arangeLen_pos (tMax dt : ℚ) (ht : 0 < tMax) (hdt : 0 < dt) :
    1 ≤ arangeLen tMax dt := by
  unfold arangeLen
  have hc : 0 < Int.ceil (tMax / dt) := Int.ceil_pos.mpr (div_pos ht hdt)
  omega

/-- Every `arange` sample is strictly below the literal maximum. -/
theorem arange_last_lt (tMax dt : ℚ) (_hmx : 0 < tMax) (hdt : 0 < dt) (k : ℕ)
    (hk : k < arangeLen tMax dt) : (k : ℚ) * dt < tMax := by
  have hceil : (k : ℤ) < Int.ceil (tMax / dt) := by
    unfold arangeLen at hk
    omega
  have hlt : (k : ℚ) < tMax / dt := by
    have := Int.lt_ceil.mp hceil
    exact_mod_cast this
  exact (lt_div_iff₀ hdt).mp hlt

/-- C4 (amended): the tuple time-span shorthands produce well-formed
arrays provided the tuple parameters are themselves sensible (positive
t_max, integer count at least 2, positive increment): the `(t_max, count)`
form yields exactly `count` evenly spaced samples `t_max * i / (count-1)`
from 0 to the literal t_max, strictly increasing; the `(t_max, dt)` form
starts at 0, is strictly increasing, keeps every non-final sample a
multiple of the increment, and preserves the literal t_max exactly as the
final sample even when dt does not evenly divide t_max. (Degenerate tuple
parameters are not validated by `add_step` and can produce non-increasing
arrays — see the counterexample.) -/
theorem tspan_normalization (tMax dt : ℚ) (count : ℕ) (hpos : 0 < tMax) :
    (2 ≤ count →
      (normTspan (TspanSpec.tupleN tMax count)).length = count ∧
      normTspan (TspanSpec.tupleN tMax count) =
        (List.range count).map (fun i : ℕ => tMax * (i : ℚ) / ((count : ℚ) - 1)) ∧
      (normTspan (TspanSpec.tupleN tMax count)).headD 1 = 0 ∧
      (normTspan (TspanSpec.tupleN tMax count)).getLastD 0 = tMax ∧
      List.Chain' (fun a b : ℚ => a < b) (normTspan (TspanSpec.tupleN tMax count))) ∧
    (0 < dt →
      (normTspan (TspanSpec.tupleDt tMax dt)).headD 1 = 0 ∧
      (normTspan (TspanSpec.tupleDt tMax dt)).getLastD 0 = tMax ∧
      List.Chain' (fun a b : ℚ => a < b) (normTspan (TspanSpec.tupleDt tMax dt)) ∧
      ∀ x ∈ arange tMax dt, ∃ k : ℕ, x = (k : ℚ) * dt) := by
  constructor
  · intro hc
    have hterm : ¬ count ≤ 1 := by omega
    have hden : (0 : ℚ) < (count : ℚ) - 1 := by
      have : (2 : ℚ) ≤ (count : ℚ) := by exact_mod_cast hc
      linarith
    have heq : normTspan (TspanSpec.tupleN tMax count) =
        (List.range count).map (fun i : ℕ => tMax * (i : ℚ) / ((count : ℚ) - 1)) := by
      unfold normTspan linspace
      dsimp only
      rw [if_neg hterm]
    refine ⟨by rw [heq]; simp, heq, ?_, ?_, ?_⟩
    · obtain ⟨m, hm⟩ : ∃ m, count = m + 1 := ⟨count - 1, by omega⟩
      rw [heq, hm, List.range_succ_eq_map]
      simp
    · obtain ⟨m, hm⟩ : ∃ m, count = m + 1 := ⟨count - 1, by omega⟩
      rw [heq, hm, List.range_succ, List.map_append, List.map_singleton]
      rw [List.getLastD_concat]
      have hmne : ((m : ℚ)) ≠ 0 := by
        have h1m : 1 ≤ m := by omega
        exact_mod_cast Nat.cast_ne_zero.mpr (by omega)
      push_cast
      rw [add_sub_cancel_right]
      exact mul_div_cancel_right₀ tMax hmne
    · rw [heq]
      refine chain_lt_map_range _ count (fun i hi => ?_)
      refine div_lt_div_of_pos_right ?_ hden
      have : (i : ℚ) < (i : ℚ) + 1 := by linarith
      calc tMax * (i : ℚ) < tMax * ((i : ℚ) + 1) := by
            exact mul_lt_mul_of_pos_left this hpos
        _ = tMax * (((i : ℕ) + 1 : ℕ) : ℚ) := by push_cast; ring
  · intro hdt
    have hlen := arangeLen_pos tMax dt hpos hdt
    obtain ⟨m, hm⟩ : ∃ m, arangeLen tMax dt = m + 1 := ⟨arangeLen tMax dt - 1, by omega⟩
    have harr := arange_eq tMax dt hpos hdt
    refine ⟨?_, ?_, ?_, ?_⟩
    · unfold normTspan
      dsimp only
      rw [harr, hm, List.range_succ_eq_map]
      simp
    · unfold normTspan
      dsimp only
      rw [List.getLastD_concat]
    · unfold normTspan
      dsimp only
      rw [List.chain'_append]
      refine ⟨?_, List.chain'_singleton tMax, ?_⟩
      · rw [harr]
        refine chain_lt_map_range _ _ (fun i hi => ?_)
        have : (i : ℚ) < ((i : ℕ) + 1 : ℕ) := by push_cast; linarith
        exact mul_lt_mul_of_pos_right this hdt
      · intro x hx y hy
        simp at hy
        subst hy
        rw [harr, hm, List.range_succ, List.map_append, List.map_singleton,
            List.getLast?_concat] at hx
        simp at hx
        subst hx
        exact arange_last_lt tMax dt hpos hdt m (by omega)
    · intro x hx
      rw [arange_eq tMax dt hpos hdt] at hx
      obtain ⟨k, _, hk⟩ := List.mem_map.mp hx
      exact ⟨k, hk.symm⟩

/-- C4 counterexample to the claim as stated: the degenerate shorthand
`(t_max = 0, count = 3)` is accepted by `add_step` without validation and
stores the time array [0, 0, 0], which is not strictly increasing. -/
theorem tspan_degenerate_counterexample :
    (addStep expEmpty "current_A" (fun _ => 1) (TspanSpec.tupleN 0 3) []).isOk = true ∧
    ((addStep expEmpty "current_A" (fun _ => 1) (TspanSpec.tupleN 0 3) []).map
      (fun e2 => e2.steps.map (fun s => s.tspan))).toOption = some [[0, 0, 0]] ∧
    ¬ List.Chain' (fun a b : ℚ => a < b) [0, 0, 0] := by
  refine ⟨rfl, ?_, fun h => absurd ((incB_iff [0, 0, 0]).mpr h) (by decide)⟩
  simp [addStep, allowedModes, expEmpty, normTspan, linspace, List.range_succ,
        Except.map, Except.toOption]

/-- C4 witness: concrete well-formed tuples — (6, 4 : int) gives four
samples ending at 6; (5, 2 : float) ends exactly at the literal 5 even
though 2 does not divide 5, and is strictly increasing. -/
theorem tspan_normalization_witness :
    (normTspan (TspanSpec.tupleN 6 4)).length = 4 ∧
    (normTspan (TspanSpec.tupleN 6 4)).getLastD 0 = 6 ∧
    (normTspan (TspanSpec.tupleDt 5 2)).getLastD 0 = 5 ∧
    List.Chain' (fun a b : ℚ => a < b) (normTspan (TspanSpec.tupleDt 5 2)) := by
  have h1 := (tspan_normalization 6 2 4 (by norm_num)).1 (by norm_num)
  have h2 := (tspan_normalization 5 2 4 (by norm_num)).2 (by norm_num)
  exact ⟨h1.1, h1.2.2.2.1, h2.2.1, h2.2.2.1⟩

/-! ## C3: stitched cycle time is strictly increasing -/

/-- Shifting a list preserves strict increase. -/
theorem chain_map_add (l : List ℚ) (off : ℚ)
    (h : List.Chain' (fun a b : ℚ => a < b) l) :
    List.Chain' (fun a b : ℚ => a < b) (l.map (· + off)) := by
  rw [List.chain'_map]
  exact h.imp (fun a b hab => by simpa using hab)

/-- Last element of a shifted list. -/
theorem map_add_getLast? (l : List ℚ) (off : ℚ) (h : l ≠ []) :
    (l.map (· + off)).getLast? = some (l.getLastD 0 + off) := by
  rcases List.eq_nil_or_concat l with h0 | ⟨l2, a, rfl⟩
  · exact absurd h0 h
  · rw [List.concat_eq_append, List.map_append, List.map_singleton,
        List.getLast?_concat, List.getLastD_concat]

/-- Head of a nonempty list whose first sample is 0. -/
theorem headD_zero_head? (l : List ℚ) (h : l ≠ []) (h0 : l.headD 1 = 0) :
    l.head? = some 0 := by
  cases l with
  | nil => exact absurd rfl h
  | cons a t =>
    simp [List.headD] at h0
    simp [h0]

/-- Core stitching invariant, generalized over the running offset: with a
positive shift, the concatenation of shifted step times is a strict
chain. -/
theorem segT_flatten_chain (tShift : ℚ) (hpos : 0 < tShift) :
    ∀ (off : ℚ) (sols : List StepSolution),
      (∀ s ∈ sols, s.t ≠ [] ∧ s.t.headD 1 = 0 ∧
        List.Chain' (fun a b : ℚ => a < b) s.t) →
      List.Chain' (fun a b : ℚ => a < b) (segT tShift off sols).flatten
  | off, [], _ => by simp [segT]
  | off, s :: rest, hs => by
    have hmem := hs s (List.mem_cons_self s rest)
    have ihyp := segT_flatten_chain tShift hpos
      (off + s.t.getLastD 0 + tShift) rest
      (fun s2 hs2 => hs s2 (List.mem_cons_of_mem s hs2))
    rw [segT, List.flatten_cons, List.chain'_append]
    refine ⟨chain_map_add s.t off hmem.2.2, ihyp, ?_⟩
    intro x hx y hy
    rw [map_add_getLast? s.t off hmem.1] at hx
    simp at hx
    subst hx
    cases rest with
    | nil => simp [segT] at hy
    | cons s2 rest2 =>
      have hmem2 := hs s2 (List.mem_cons_of_mem s (List.mem_cons_self s2 rest2))
      rw [segT, List.flatten_cons] at hy
      rw [List.head?_append_of_ne_nil _ (by
        intro hcon
        exact hmem2.1 (List.map_eq_nil_iff.mp hcon))] at hy
      rw [List.head?_map, headD_zero_head? s2.t hmem2.1 hmem2.2.1] at hy
      simp at hy
      subst hy
      linarith

/-- C3 (amended): for every sequence of StepSolutions stitched into a
CycleSolution — at construction or by appending afterwards — the resulting
time array is strictly increasing whenever the shift epsilon is positive.
(With the permitted t_shift = 0 the boundary samples of consecutive steps
coincide, so the array is only non-decreasing — see the counterexample.) -/
theorem cycle_time_strict_mono (tShift : ℚ) (sols : List StepSolution)
    (hpos : 0 < tShift)
    (hsols : ∀ s ∈ sols, s.t ≠ [] ∧ s.t.headD 1 = 0 ∧
      List.Chain' (fun a b : ℚ => a < b) s.t) :
    List.Chain' (fun a b : ℚ => a < b) (mkCycle tShift sols).t ∧
    ∀ s2 : StepSolution, s2.t ≠ [] → s2.t.headD 1 = 0 →
      List.Chain' (fun a b : ℚ => a < b) s2.t →
      List.Chain' (fun a b : ℚ => a < b) (appendSol (mkCycle tShift sols) s2).t := by
  constructor
  · exact segT_flatten_chain tShift hpos 0 sols hsols
  · intro s2 h1 h2 h3
    refine segT_flatten_chain tShift hpos 0 (sols ++ [s2]) ?_
    intro s hs
    rcases List.mem_append.mp hs with hl | hr
    · exact hsols s hl
    · rw [List.mem_singleton.mp hr]
      exact ⟨h1, h2, h3⟩

/-- C3 counterexample to the claim as stated: stitching two ordinary
two-sample steps with the permitted shift t_shift = 0 yields the time
array [0, 1, 1, 2], in which the boundary samples collide — the stitched
time is not strictly increasing. -/
theorem cycle_time_tshift_zero_counterexample :
    (mkCycle 0 [solPlain, solPlain]).t = [0, 1, 1, 2] ∧
    ¬ List.Chain' (fun a b : ℚ => a < b) (mkCycle 0 [solPlain, solPlain]).t := by
  have heq : (mkCycle 0 [solPlain, solPlain]).t = [0, 1, 1, 2] := by
    simp [mkCycle, stitchTimes, segT, solPlain]
    norm_num
  refine ⟨heq, ?_⟩
  rw [heq]
  intro h
  exact absurd ((incB_iff [0, 1, 1, 2]).mpr h) (by decide)

/-- C3 witness: a concrete two-step stitch with the default positive shift
is strictly increasing, also after appending a third step. -/
theorem cycle_time_strict_mono_witness :
    List.Chain' (fun a b : ℚ => a < b) (mkCycle (1/1000) [solA, solB]).t ∧
    List.Chain' (fun a b : ℚ => a < b)
      (appendSol (mkCycle (1/1000) [solA, solB]) solPlain).t := by
  have hsols : ∀ s ∈ [solA, solB], s.t ≠ [] ∧ s.t.headD 1 = 0 ∧
      List.Chain' (fun a b : ℚ => a < b) s.t := by
    intro s hs
    rcases List.mem_cons.mp hs with rfl | hs2
    · exact ⟨by simp [solA], by simp [solA], (incB_iff [0, 1]).mp (by decide)⟩
    · rw [List.mem_singleton.mp hs2]
      exact ⟨by simp [solB], by simp [solB], (incB_iff [0, 1]).mp (by decide)⟩
  have h := cycle_time_strict_mono (1/1000) [solA, solB] (by norm_num) hsols
  exact ⟨h.1, h.2 solPlain (by simp [solPlain]) (by simp [solPlain])
    ((incB_iff [0, 1]).mp (by decide))⟩

/-! ## C7: get_steps reproduces the stitched step -/

/-- Slicing a flattened list of segments at the cumulative length of the
preceding segments returns the chosen segment. -/
theorem flatten_drop_take :
    ∀ (ls : List (List ℚ)) (i : ℕ) (L : List ℚ), ls[i]? = some L →
      (ls.flatten.drop (((ls.take i).map List.length).sum)).take L.length = L
  | [], i, L, h => by simp at h
  | a :: rest, 0, L, h => by
    simp at h
    subst h
    simp [List.take_left]
  | a :: rest, i + 1, L, h => by
    rw [List.getElem?_cons_succ] at h
    have ih := flatten_drop_take rest i L h
    rw [List.flatten_cons, List.take_succ_cons, List.map_cons, List.sum_cons,
        List.drop_append]
    exact ih

/-- The i-th stitched time segment is step i's time array shifted by the
cumulative offset. -/
theorem segT_getElem? (tShift : ℚ) :
    ∀ (sols : List StepSolution) (off : ℚ) (i : ℕ),
      (segT tShift off sols)[i]? =
        (sols[i]?).map (fun s => s.t.map (· + cumOff tShift off sols i))
  | [], off, i => by simp [segT]
  | s :: rest, off, 0 => by simp [segT, cumOff]
  | s :: rest, off, i + 1 => by
    rw [segT, List.getElem?_cons_succ, List.getElem?_cons_succ]
    exact segT_getElem? tShift rest (off + s.t.getLastD 0 + tShift) i

/-- The per-segment lengths of the stitched times are the per-step sample
counts. -/
theorem segT_take_lengths (tShift : ℚ) :
    ∀ (sols : List StepSolution) (off : ℚ) (i : ℕ),
      ((segT tShift off sols).take i).map List.length =
        (sols.take i).map (fun s => s.t.length)
  | [], off, i => by simp [segT]
  | s :: rest, off, 0 => by simp
  | s :: rest, off, i + 1 => by
    rw [segT, List.take_succ_cons, List.take_succ_cons, List.map_cons,
        List.map_cons]
    rw [segT_take_lengths tShift rest (off + s.t.getLastD 0 + tShift) i]
    simp

/-- Shifting a named series preserves its length. -/
theorem shiftSeries_length (nm : String) (off : ℚ) (ser : List ℚ) :
    (shiftSeries nm off ser).length = ser.length := by
  unfold shiftSeries
  split_ifs <;> simp

/-- Non-time observables are not shifted. -/
theorem shiftSeries_not_time (nm : String) (off : ℚ) (ser : List ℚ)
    (h : nm ∉ timeNames) : shiftSeries nm off ser = ser := by
  simp [timeNames] at h
  unfold shiftSeries
  rw [if_neg h.1, if_neg h.2.1, if_neg h.2.2]

/-- The i-th stitched segment of a named series. -/
theorem segVar_getElem? (tShift : ℚ) (nm : String) :
    ∀ (sols : List StepSolution) (off : ℚ) (i : ℕ),
      (segVar tShift off nm sols)[i]? =
        (sols[i]?).map
          (fun s => shiftSeries nm (cumOff tShift off sols i) (seriesOf nm s))
  | [], off, i => by simp [segVar]
  | s :: rest, off, 0 => by simp [segVar, cumOff]
  | s :: rest, off, i + 1 => by
    rw [segVar, List.getElem?_cons_succ, List.getElem?_cons_succ]
    exact segVar_getElem? tShift nm rest (off + s.t.getLastD 0 + tShift) i

/-- With uniform series lengths, the per-segment lengths of a stitched
series are the per-step sample counts. -/
theorem segVar_take_lengths (tShift : ℚ) (nm : String) :
    ∀ (sols : List StepSolution) (off : ℚ) (i : ℕ),
      (∀ s ∈ sols, (seriesOf nm s).length = s.t.length) →
      ((segVar tShift off nm sols).take i).map List.length =
        (sols.take i).map (fun s => s.t.length)
  | [], off, i, _ => by simp [segVar]
  | s :: rest, off, 0, _ => by simp
  | s :: rest, off, i + 1, huni => by
    rw [segVar, List.take_succ_cons, List.take_succ_cons, List.map_cons,
        List.map_cons]
    rw [segVar_take_lengths tShift nm rest (off + s.t.getLastD 0 + tShift) i
      (fun s2 hs2 => huni s2 (List.mem_cons_of_mem s hs2))]
    rw [shiftSeries_length, huni s (List.mem_cons_self s rest)]

/-- Looking a name up in a name-keyed map built over a name list. -/
theorem lookupSeries_map_names (g : String → List ℚ) :
    ∀ (names : List String) (nm : String), nm ∈ names →
      lookupSeries nm (names.map (fun n2 => (n2, g n2))) = some (g nm)
  | [], nm, h => by simp at h
  | n2 :: rest, nm, h => by
    by_cases he : n2 = nm
    · subst he
      simp [lookupSeries, List.find?]
    · have hmem : nm ∈ rest := by
        rcases List.mem_cons.mp h with h1 | h1
        · exact absurd h1.symm he
        · exact h1
      have ih := lookupSeries_map_names g rest nm hmem
      simp only [lookupSeries, List.map_cons, List.find?] at ih ⊢
      rw [show (decide ((n2, g n2).1 = nm)) = false from by simp [he]]
      exact ih

/-- C7: `get_steps` with an integer index slices step i back out of the
stitched arrays: its time series is step i's time array shifted by the
cumulative stitching offset, and every non-time observable series is
reproduced exactly, provided the steps' series lengths match their sample
counts; `get_steps` with a (first, last) tuple re-stitches exactly the
contiguous range of steps into a CycleSolution. -/
theorem getSteps_reproduces (tShift : ℚ) (sols : List StepSolution) (i : ℕ)
    (s : StepSolution) (hi : sols[i]? = some s)
    (huni : ∀ s2 ∈ sols, ∀ nm ∈ varNamesOf sols,
      (seriesOf nm s2).length = s2.t.length) :
    (getStepSol (mkCycle tShift sols) i).t =
      s.t.map (· + cumOff tShift 0 sols i) ∧
    (∀ nm, nm ∈ varNamesOf sols → nm ∉ timeNames →
      lookupSeries nm (getStepSol (mkCycle tShift sols) i).vars =
        some (seriesOf nm s)) ∧
    (∀ a b : ℕ, (getStepsRange (mkCycle tShift sols) (a, b)).sols =
      (sols.drop a).take (b + 1 - a)) := by
  have hg : sols.get? i = some s := by
    rw [List.get?_eq_getElem?]
    exact hi
  have hsmem : s ∈ sols := List.get?_mem hg
  refine ⟨?_, ?_, fun a b => rfl⟩
  · have hseg : (segT tShift 0 sols)[i]? =
        some (s.t.map (· + cumOff tShift 0 sols i)) := by
      rw [segT_getElem? tShift sols 0 i, hi]
      rfl
    have hsl := flatten_drop_take (segT tShift 0 sols) i
      (s.t.map (· + cumOff tShift 0 sols i)) hseg
    rw [segT_take_lengths tShift sols 0 i] at hsl
    rw [List.length_map] at hsl
    dsimp only [getStepSol, mkCycle, stitchTimes, tStartIdx]
    rw [hg]
    simp only [Option.map_some', Option.getD_some]
    exact hsl
  · intro nm hnm hnotime
    have hunis : (seriesOf nm s).length = s.t.length := huni s hsmem nm hnm
    have hseg : (segVar tShift 0 nm sols)[i]? =
        some (shiftSeries nm (cumOff tShift 0 sols i) (seriesOf nm s)) := by
      rw [segVar_getElem? tShift nm sols 0 i, hi]
      rfl
    have hslice := flatten_drop_take (segVar tShift 0 nm sols) i
      (shiftSeries nm (cumOff tShift 0 sols i) (seriesOf nm s)) hseg
    rw [segVar_take_lengths tShift nm sols 0 i
      (fun s2 hs2 => huni s2 hs2 nm hnm)] at hslice
    rw [shiftSeries_length, hunis] at hslice
    rw [shiftSeries_not_time nm _ _ hnotime] at hslice
    dsimp only [getStepSol, mkCycle, tStartIdx]
    rw [hg]
    simp only [Option.map_some', Option.getD_some]
    rw [List.map_map]
    rw [show ((fun nv : String × List ℚ =>
        (nv.1, (nv.2.drop (((sols.take i).map (fun s2 => s2.t.length)).sum)).take
          s.t.length)) ∘ (fun n2 => (n2, (segVar tShift 0 n2 sols).flatten))) =
      (fun n2 => (n2, ((segVar tShift 0 n2 sols).flatten.drop
        (((sols.take i).map (fun s2 => s2.t.length)).sum)).take s.t.length))
      from rfl]
    rw [lookupSeries_map_names (fun n2 => ((segVar tShift 0 n2 sols).flatten.drop
        (((sols.take i).map (fun s2 => s2.t.length)).sum)).take s.t.length)
      (varNamesOf sols) nm hnm]
    rw [hslice]

/-- C7 witness: in a concrete two-step cycle, extracting step 1 returns
its soc series exactly and its time samples shifted by the cumulative
offset; the tuple form returns the requested contiguous range. -/
theorem getSteps_reproduces_witness :
    (getStepSol cyc7 1).t = solB.t.map (· + cumOff (1/1000) 0 [solA, solB] 1) ∧
    lookupSeries "soc" (getStepSol cyc7 1).vars = some (seriesOf "soc" solB) ∧
    (getStepsRange cyc7 (0, 0)).sols = [solA] := by
  have huni : ∀ s2 ∈ [solA, solB], ∀ nm ∈ varNamesOf [solA, solB],
      (seriesOf nm s2).length = s2.t.length := by
    intro s2 hs2 nm hnm
    have hnm2 : nm = "soc" := by
      simpa [varNamesOf, solA] using hnm
    subst hnm2
    rcases List.mem_cons.mp hs2 with rfl | hs3
    · rfl
    · rw [List.mem_singleton.mp hs3]
      rfl
  have h := getSteps_reproduces (1/1000) [solA, solB] 1 solB rfl huni
  refine ⟨h.1, h.2.1 "soc" (by simp [varNamesOf, solA]) (by decide), ?_⟩
  have h3 := h.2.2 0 0
  simpa using h3

/-! ## C8: failed integration commits nothing; success commits the final
state -/

/-- C8: `run_step` against any external solver propagates a solver failure
as a single fatal error from the one solve call — no retry — and returns
the Model exactly as it was, so the live state vector is untouched; only
when the solve call succeeds (full span or terminal event) is the live
state updated, to the final reached state of the returned result. -/
theorem runStep_no_partial_commit (solve : SolveFn) (m : Model) (st : LoadStep) :
    (∀ e, solve ⟨m.prm, st, m.state⟩ = Except.error e →
      runStepWith solve m st = (Except.error e, m)) ∧
    (∀ r, solve ⟨m.prm, st, m.state⟩ = Except.ok r →
      (runStepWith solve m st).2 = { m with state := r.states.getLastD m.state } ∧
      (runStepWith solve m st).1.isOk = true) := by
  constructor
  · intro e he
    unfold runStepWith
    rw [he]
  · intro r hr
    unfold runStepWith
    rw [hr]
    exact ⟨rfl, rfl⟩

/-- C8 witness: a failing solver leaves a concrete model untouched and
surfaces the failure; a succeeding solver commits the final state. -/
theorem runStep_no_partial_commit_witness :
    runStepWith failSolve ⟨p0c, rested p0c⟩ stepW =
      (Except.error SolverErr.maxSteps, ⟨p0c, rested p0c⟩) ∧
    (runStepWith okSolve ⟨p0c, rested p0c⟩ stepW).2 =
      { prm := p0c, state := [5, 0, 300] } := by
  constructor
  · exact (runStep_no_partial_commit failSolve ⟨p0c, rested p0c⟩ stepW).1
      SolverErr.maxSteps rfl
  · have h := (runStep_no_partial_commit okSolve ⟨p0c, rested p0c⟩ stepW).2
      ⟨[0], [[5, 0, 300]]⟩ rfl
    rw [h.1]
    rfl

/-! ## C6: run with reset_state then re-run is reproducible -/

/-- One step execution never changes the parameter set. -/
theorem runStepWith_prm (solve : SolveFn) (m : Model) (st : LoadStep) :
    (runStepWith solve m st).2.prm = m.prm := by
  unfold runStepWith
  cases solve ⟨m.prm, st, m.state⟩ <;> rfl

/-- Sequential step execution never changes the parameter set. -/
theorem runSteps_prm (steps : List LoadStep) :
    ∀ m : Model, (runSteps m steps).2.2.prm = m.prm := by
  induction steps with
  | nil => intro m; rfl
  | cons st rest ih =>
    intro m
    unfold runSteps
    split
    · rename_i e m1 heq
      have hp := runStepWith_prm eulerSolve m st
      rw [show runStepWith eulerSolve m st = runStep m st from rfl, heq] at hp
      exact hp
    · rename_i s m1 heq
      have hp := runStepWith_prm eulerSolve m st
      rw [show runStepWith eulerSolve m st = runStep m st from rfl, heq] at hp
      split
      · rename_i ss err m2 heq2
        have := ih m1
        rw [heq2] at this
        dsimp at this ⊢
        rw [this, hp]

/-- A successful default run leaves the model reset to the rested initial
condition at soc0. -/
theorem run_ok_resets (m : Model) (e : Experiment) (tShift : ℚ)
    (hok : (run m e true tShift).1.isOk = true) :
    (run m e true tShift).2 = ⟨m.prm, rested m.prm⟩ := by
  unfold run at hok ⊢
  rcases heq : runSteps m e.steps with ⟨ss, err, m1⟩
  cases err with
  | some e2 =>
    rw [heq] at hok
    dsimp at hok
    simp [Except.isOk, Except.toBool] at hok
  | none =>
    dsimp
    have hp := runSteps_prm e.steps m
    rw [heq] at hp
    dsimp at hp
    rw [hp]

/-- C6: running an Experiment with `reset_state = true` from the rested
initial condition and then re-running the identical Experiment on the
resulting Model produces the identical output — the same CycleSolution,
with bit-for-bit identical StepSolutions — because the default run resets
the live state back to the rested condition at soc0 on completion and the
executor is a pure function of the parameter set and the starting state. -/
theorem run_reset_roundtrip (m : Model) (e : Experiment) (tShift : ℚ)
    (h0 : m.state = rested m.prm)
    (hok : (run m e true tShift).1.isOk = true) :
    run ((run m e true tShift).2) e true tShift = run m e true tShift := by
  rw [run_ok_resets m e tShift hok]
  cases m with
  | mk prm st =>
    dsimp at h0
    rw [show (⟨prm, st⟩ : Model).prm = prm from rfl]
    rw [← h0]

/-- C6 witness: a concrete run of a one-step experiment from the rested
condition, repeated, returns the identical stitched output. -/
theorem run_reset_roundtrip_witness :
    run ((run ⟨p0c, rested p0c⟩ expW true (1/1000)).2) expW true (1/1000) =
      run ⟨p0c, rested p0c⟩ expW true (1/1000) :=
  run_reset_roundtrip ⟨p0c, rested p0c⟩ expW (1/1000) rfl (by rfl)

/-! ## C2: the cell-voltage observable includes the hysteresis state -/

/-- Indexing a zip of two lists. -/
theorem zip_getElem? :
    ∀ (as : List (List ℚ)) (bs : List ℚ) (k : ℕ) (a : List ℚ) (b : ℚ),
      as[k]? = some a → bs[k]? = some b → (as.zip bs)[k]? = some (a, b)
  | [], _, k, _, _, ha, _ => by simp at ha
  | _ :: _, [], k, _, _, _, hb => by simp at hb
  | a0 :: as, b0 :: bs, 0, a, b, ha, hb => by
    simp at ha hb
    subst ha
    subst hb
    simp [List.zip_cons_cons]
  | a0 :: as, b0 :: bs, k + 1, a, b, ha, hb => by
    rw [List.getElem?_cons_succ] at ha hb
    rw [List.zip_cons_cons, List.getElem?_cons_succ]
    exact zip_getElem? as bs k a b ha hb

/-- C2: every voltage sample of an assembled solution equals
`OCV(soc) + h - sum_j V_j - I*R0(soc, T)` with the hysteresis state at
layout index 1 entering additively and R0 evaluated at the sample's soc
and temperature slots; and every successful `run_step` result carries
exactly the observables assembled from the solver's raw states, so the
relation holds at every state reached during a simulation. -/
theorem voltage_includes_hysteresis :
    (∀ (p : Params) (cur : ℚ → ℚ) (ts : List ℚ) (states : List (List ℚ))
      (k : ℕ) (sv : List ℚ) (tk : ℚ),
      states[k]? = some sv → ts[k]? = some tk →
      lookupSeries "voltage_V" (observables p cur ts states) =
        some ((states.zip ts).map (fun st => vCell p st.1 (cur st.2))) ∧
      ((states.zip ts).map (fun st => vCell p st.1 (cur st.2)))[k]? =
        some (p.ocv (sv.getD 0 0) + sv.getD 1 0
          - ((List.range p.numRC).map (fun j => sv.getD (2 + j) 0)).sum
          - cur tk * p.r0 (sv.getD 0 0) (sv.getD (p.numRC + 2) 0))) ∧
    (∀ (solve : SolveFn) (m : Model) (st : LoadStep) (sol : StepSolution)
      (m2 : Model), runStepWith solve m st = (Except.ok sol, m2) →
      ∃ r, solve ⟨m.prm, st, m.state⟩ = Except.ok r ∧ sol.t = r.t ∧
        sol.vars = observables m.prm (curOf m.prm st) r.t r.states) := by
  constructor
  · intro p cur ts states k sv tk hsv htk
    refine ⟨rfl, ?_⟩
    rw [List.getElem?_map, zip_getElem? states ts k sv tk hsv htk]
    rfl
  · intro solve m st sol m2 h
    unfold runStepWith at h
    cases hs : solve ⟨m.prm, st, m.state⟩ with
    | error e =>
      rw [hs] at h
      simp at h
    | ok r =>
      rw [hs] at h
      rw [Prod.mk.injEq] at h
      obtain ⟨h1, _⟩ := h
      rw [Except.ok.injEq] at h1
      subst h1
      exact ⟨r, rfl, rfl, rfl⟩

/-- C2 witness: a concrete one-sample assembly at state [1, 0, 300] and
current 2 yields the formula value at index 0. -/
theorem voltage_includes_hysteresis_witness :
    lookupSeries "voltage_V" (observables p0c (fun _ => 2) [0] [[1, 0, 300]]) =
      some (([[1, 0, 300]].zip ([0] : List ℚ)).map
        (fun st => vCell p0c st.1 ((fun _ => (2 : ℚ)) st.2))) ∧
    (([[1, 0, 300]].zip ([0] : List ℚ)).map
        (fun st => vCell p0c st.1 ((fun _ => (2 : ℚ)) st.2)))[0]? =
      some (p0c.ocv (([1, 0, 300] : List ℚ).getD 0 0) +
        ([1, 0, 300] : List ℚ).getD 1 0
        - ((List.range p0c.numRC).map
            (fun j => ([1, 0, 300] : List ℚ).getD (2 + j) 0)).sum
        - 2 * p0c.r0 (([1, 0, 300] : List ℚ).getD 0 0)
            (([1, 0, 300] : List ℚ).getD (p0c.numRC + 2) 0)) :=
  (voltage_includes_hysteresis).1 p0c (fun _ => 2) [0] [[1, 0, 300]] 0
    [1, 0, 300] 0 rfl rfl

/-! ## C10: time limits reference total experiment time -/

/-- C10: the three time limits compare their threshold against the total
accumulated experiment time (step start plus step-relative time, in the
limit's unit) — so a time threshold already exceeded by previous steps is
positive from the first instant of the step — while every non-time limit
is independent of the accumulated start time and reads the step's
instantaneous observables. -/
theorem time_limits_use_total_time (p : Params) (tStart tStart2 : ℚ)
    (nm : String) (thr tRel : ℚ) (sv : List ℚ) (curv : ℚ) :
    (limitEventVal p tStart "time_s" thr tRel sv curv = (tStart + tRel) - thr ∧
     limitEventVal p tStart "time_min" thr tRel sv curv =
       (tStart + tRel) / 60 - thr ∧
     limitEventVal p tStart "time_h" thr tRel sv curv =
       (tStart + tRel) / 3600 - thr) ∧
    (thr < tStart → 0 ≤ tRel →
      0 < limitEventVal p tStart "time_s" thr tRel sv curv) ∧
    (nm ∉ timeNames →
      limitEventVal p tStart nm thr tRel sv curv =
        limitEventVal p tStart2 nm thr tRel sv curv) ∧
    limitEventVal p tStart "voltage_V" thr tRel sv curv =
      vCell p sv curv - thr ∧
    limitEventVal p tStart "soc" thr tRel sv curv = svSoc sv - thr := by
  refine ⟨⟨rfl, rfl, rfl⟩, ?_, ?_, rfl, rfl⟩
  · intro h1 h2
    rw [show limitEventVal p tStart "time_s" thr tRel sv curv =
      (tStart + tRel) - thr from rfl]
    linarith
  · intro h
    simp [timeNames] at h
    simp only [limitEventVal, if_neg h.1, if_neg h.2.1, if_neg h.2.2]

/-- C10 witness: with 100 s of experiment time already accumulated, a 50 s
time limit is positive at the very start of the step, and a soc limit is
unaffected by the accumulated time. -/
theorem time_limits_use_total_time_witness :
    (0 < limitEventVal p0c 100 "time_s" 50 0 [1, 0, 300] 0) ∧
    limitEventVal p0c 100 "soc" (1/2) 0 [1, 0, 300] 0 =
      limitEventVal p0c 7 "soc" (1/2) 0 [1, 0, 300] 0 := by
  constructor
  · exact (time_limits_use_total_time p0c 100 7 "soc" 50 0 [1, 0, 300] 0).2.1
      (by norm_num) (by norm_num)
  · exact (time_limits_use_total_time p0c 100 7 "soc" (1/2) 0
      [1, 0, 300] 0).2.2.1 (by decide)

/-! ## C9: the 75 Ah / 75 A / 3600 s scenario -/

/-- First Euler update of the scenario: half the charge is drawn. -/
theorem scenario_update1 :
    eulerUpdate p0c step9.value [1, 0, 300] 0 1800 = [1/2, 0, 300] := by
  simp [eulerUpdate, rhsFuncs, socRate, hystRate, tempRate, etaCE, sgn,
        svSoc, svHyst, svTemp, svEta, ptrSoc, ptrHyst, ptrTemp, ptrEta,
        p0c, step9, vCell]
  norm_num

/-- Second Euler update of the scenario: the battery is empty. -/
theorem scenario_update2 :
    eulerUpdate p0c step9.value [1/2, 0, 300] 1800 3600 = [0, 0, 300] := by
  simp [eulerUpdate, rhsFuncs, socRate, hystRate, tempRate, etaCE, sgn,
        svSoc, svHyst, svTemp, svEta, ptrSoc, ptrHyst, ptrTemp, ptrEta,
        p0c, step9, vCell]
  norm_num

/-- The scenario's integrated states: SOC 1, 1/2, 0 with zero hysteresis
and clamped temperature. For this constant-rate system the explicit Euler
stand-in coincides with the exact solution of the SOC rate equation. -/
theorem scenario_march :
    eulerMarch p0c step9.value [1, 0, 300] [0, 1800, 3600] =
      [[1, 0, 300], [1/2, 0, 300], [0, 0, 300]] := by
  simp only [eulerMarch]
  rw [scenario_update1, scenario_update2]

/-- The raw solver result of the scenario step. -/
theorem scenario_solve :
    eulerSolve ⟨p0c, step9, [1, 0, 300]⟩ =
      Except.ok ⟨[0, 1800, 3600], [[1, 0, 300], [1/2, 0, 300], [0, 0, 300]]⟩ := by
  show Except.ok (⟨step9.tspan,
    eulerMarch p0c step9.value [1, 0, 300] step9.tspan⟩ : RawResult) = _
  rw [show step9.tspan = [0, 1800, 3600] from rfl, scenario_march]

/-- The full run_step outcome of the scenario step. -/
theorem scenario_runStep :
    runStep ⟨p0c, rested p0c⟩ step9 =
      (Except.ok (⟨[0, 1800, 3600],
          observables p0c (curOf p0c step9) [0, 1800, 3600]
            [[1, 0, 300], [1/2, 0, 300], [0, 0, 300]],
          true⟩ : StepSolution),
        (⟨p0c, [0, 0, 300]⟩ : Model)) := by
  unfold runStep runStepWith
  rw [show (⟨p0c, rested p0c⟩ : Model).prm = p0c from rfl,
      show (⟨p0c, rested p0c⟩ : Model).state = [1, 0, 300] from rfl,
      scenario_solve]
  rfl

/-- The scenario's voltage series: constant 2.75 V at every sample. -/
theorem scenario_voltage :
    lookupSeries "voltage_V" (observables p0c (curOf p0c step9) [0, 1800, 3600]
      [[1, 0, 300], [1/2, 0, 300], [0, 0, 300]]) =
      some [11/4, 11/4, 11/4] := by
  show some ((([[1, 0, 300], [1/2, 0, 300], [0, 0, 300]].zip
      ([0, 1800, 3600] : List ℚ)).map
      (fun st => vCell p0c st.1 (curOf p0c step9 st.2)))) = _
  simp [List.zip_cons_cons, vCell, svSoc, svHyst, svTemp, svEta, ptrSoc,
        ptrHyst, ptrTemp, ptrEta, p0c, curOf, stepCurrentFn, step9]
  norm_num

/-- C9: for the 0-RC isothermal model with capacity 75 Ah, constant
R0 = 0.01 Ohm and constant OCV = 3.5 V, a constant 75 A discharge for
3600 s from the rested full state drains the SOC from 1 to 0 — a drop of
exactly 1.0, trivially within 1e-6 — while the cell voltage equals
3.5 - 75*0.01 = 2.75 V at every sample of the step. -/
theorem discharge_scenario :
    (runStep ⟨p0c, rested p0c⟩ step9).1.map
        (fun sol => lookupSeries "soc" sol.vars) =
      Except.ok (some [1, 1/2, 0]) ∧
    (runStep ⟨p0c, rested p0c⟩ step9).1.map
        (fun sol => lookupSeries "voltage_V" sol.vars) =
      Except.ok (some [11/4, 11/4, 11/4]) ∧
    (runStep ⟨p0c, rested p0c⟩ step9).2.state = [0, 0, 300] ∧
    ([1, 1/2, 0] : List ℚ).headD 0 - ([1, 1/2, 0] : List ℚ).getLastD 0 = 1 ∧
    |([1, 1/2, 0] : List ℚ).headD 0 - ([1, 1/2, 0] : List ℚ).getLastD 0 - 1|
      ≤ 1/1000000 ∧
    (11/4 : ℚ) = 7/2 - 75 * (1/100) := by
  refine ⟨?_, ?_, ?_, by norm_num, by norm_num, by norm_num⟩
  · rw [scenario_runStep]
    rfl
  · rw [scenario_runStep]
    show Except.ok (lookupSeries "voltage_V" (observables p0c (curOf p0c step9)
      [0, 1800, 3600] [[1, 0, 300], [1/2, 0, 300], [0, 0, 300]])) = _
    rw [scenario_voltage]
  · rw [scenario_runStep]

end Thevenin
